import Mathlib

/-!
# card-search: metadata lookups, enrichment, sampling and the API client

A shallow embedding of `internal/util/util.go`, `internal/hsapi/hsapi.go` and the
body of `handleIndexPage` in `handlers.index.go`.

Go `int64` identifiers are modelled as `Int`: the lookups only compare them for
equality, so no wrap-around arises there.  Go slices are modelled as `List`.
-/

namespace hsapi

/-- GenericMetadata: the fields of `hsapi.GenericMetadata`. -/
structure GenericMetadata where
  ID : Int
  Name : String
  Slug : String
  deriving DecidableEq, Repr

/-- Rarity: the fields of `hsapi.Rarity`. -/
structure Rarity where
  CraftingCost : List Int
  DustValue : List Int
  ID : Int
  Name : String
  Slug : String
  deriving DecidableEq, Repr

/-- Class: the fields of `hsapi.Class`. -/
structure Class where
  AlternateHeroCardIds : List Int
  CardID : Int
  HeroPowerCardID : Int
  ID : Int
  Name : String
  Slug : String
  deriving DecidableEq, Repr

/-- Set: the fields of `hsapi.Set` (`SetType` is the Go field `Type`, a Lean keyword). -/
structure Set where
  AliasSetIds : List Int
  CollectibleCount : Int
  CollectibleRevealedCount : Int
  ID : Int
  Name : String
  NonCollectibleCount : Int
  NonCollectibleRevealedCount : Int
  Slug : String
  SetType : String
  deriving DecidableEq, Repr

/-- Card: the fields of `hsapi.Card`; the two `interface{}` fields (`ArtistName`,
`MultiClassIds`) carry no data the program reads and are left out. -/
structure Card where
  CardSetID : Int
  CardTypeID : Int
  ClassID : Int
  Collectible : Int
  CropImage : String
  FlavorText : String
  Health : Int
  ID : Int
  Image : String
  ImageGold : String
  ManaCost : Int
  Name : String
  ParentID : Int
  RarityID : Int
  Slug : String
  Text : String
  deriving DecidableEq, Repr

/-- MetadataResult: the four collections of `hsapi.MetadataResult` that the program reads
(`Classes`, `Rarities`, `Sets`, `Types`); the other collections are never consulted. -/
structure MetadataResult where
  Classes : List Class
  Rarities : List Rarity
  Sets : List Set
  Types : List GenericMetadata
  deriving DecidableEq, Repr

end hsapi

namespace util

/-- Contains: `for _, a := range s { if a == e { return true } }; return false`. -/
def Contains : List Int → Int → Bool
  | [], _ => false
  | a :: s, e => if a = e then true else Contains s e

/-- GetRarityName: the first entry whose `ID` equals `id` gives the name, else `""`. -/
def GetRarityName (id : Int) : List hsapi.Rarity → String
  | [] => ""
  | m :: metadata => if m.ID = id then m.Name else GetRarityName id metadata

/-- GetClassName: the first entry whose `ID` equals `id` gives the name, else `""`. -/
def GetClassName (id : Int) : List hsapi.Class → String
  | [] => ""
  | m :: metadata => if m.ID = id then m.Name else GetClassName id metadata

/-- GetName: the first entry whose `ID` equals `id` gives the name, else `""`. -/
def GetName (id : Int) : List hsapi.GenericMetadata → String
  | [] => ""
  | m :: metadata => if m.ID = id then m.Name else GetName id metadata

/-- GetSetName: per entry, first `Contains(m.AliasSetIds, id)`, then `m.ID == id`;
falls through to the next entry, and to `""` after the last one. -/
def GetSetName (id : Int) : List hsapi.Set → String
  | [] => ""
  | m :: metadata =>
    if Contains m.AliasSetIds id then m.Name
    else if m.ID = id then m.Name
    else GetSetName id metadata

/-- The lookup the specification contrasts `GetSetName` with, written from its words:
"aliases first globally, then primaries": a first pass over every entry's alias list,
and only if that finds nothing a second pass over the primary ids. -/
def twoPassSetName (id : Int) (metadata : List hsapi.Set) : String :=
  match metadata.find? (fun m => Contains m.AliasSetIds id) with
  | some m => m.Name
  | none =>
    match metadata.find? (fun m => decide (m.ID = id)) with
    | some m => m.Name
    | none => ""

/-- A set entry with the given primary id, alias ids and name (other fields zero). -/
def mkSet (id : Int) (aliases : List Int) (name : String) : hsapi.Set :=
  { AliasSetIds := aliases, CollectibleCount := 0, CollectibleRevealedCount := 0,
    ID := id, Name := name, NonCollectibleCount := 0, NonCollectibleRevealedCount := 0,
    Slug := "", SetType := "" }

/-- A generic metadata entry with the given id and name (slug empty). -/
def mkGeneric (id : Int) (name : String) : hsapi.GenericMetadata :=
  { ID := id, Name := name, Slug := "" }

/-- A rarity entry with the given id and name (other fields zero). -/
def mkRarity (id : Int) (name : String) : hsapi.Rarity :=
  { CraftingCost := [], DustValue := [], ID := id, Name := name, Slug := "" }

/-- A class entry with the given id and name (other fields zero). -/
def mkClass (id : Int) (name : String) : hsapi.Class :=
  { AlternateHeroCardIds := [], CardID := 0, HeroPowerCardID := 0, ID := id, Name := name,
    Slug := "" }

end util

namespace handlers

/-- A Go `map[string]string`, as the list of its key/value pairs. -/
abbrev StringMap := List (String × String)

/-- The Go index expression `m[key]` on a `map[string]string`: the stored value, or the zero
value `""` when the key is missing (also on the nil map, `[]`). -/
def mapIndex : StringMap → String → String
  | [], _ => ""
  | (k, v) :: rest, key => if k = key then v else mapIndex rest key

/-- The library call `strconv.FormatInt(i, 10)`: the decimal digits of `i`, with a leading
`-` for a negative number. -/
def FormatInt (i : Int) : String :=
  if i < 0 then "-" ++ String.mk (Nat.toDigits 10 i.natAbs)
  else String.mk (Nat.toDigits 10 i.natAbs)

/-- The map literal built for one card in `handleIndexPage` (keys in source order). -/
def cardRecord (metadata : hsapi.MetadataResult) (card : hsapi.Card) : StringMap :=
  [("id", FormatInt card.ID),
   ("name", card.Name),
   ("type", util.GetName card.CardTypeID metadata.Types),
   ("image", card.Image),
   ("rarity", util.GetRarityName card.RarityID metadata.Rarities),
   ("set", util.GetSetName card.CardSetID metadata.Sets),
   ("class", util.GetClassName card.ClassID metadata.Classes)]

/-- The enrichment loop of `handleIndexPage`:
`var cardsData []map[string]string; for _, card := range cards { cardsData = append(cardsData, c) }`. -/
def enrichCards (metadata : hsapi.MetadataResult) (cards : List hsapi.Card) : List StringMap :=
  cards.foldl (fun cardsData card => cardsData ++ [cardRecord metadata card]) []

/-- The two run-time panics the sampling code can raise. -/
inductive Fault where
  /-- Panic "slice bounds out of range [:high] with capacity cap". -/
  | sliceBounds (high cap : Nat)
  /-- Panic "index out of range [index] with length len". -/
  | indexRange (index len : Nat)
  deriving DecidableEq, Repr

/-- Go's `<` on two strings: lexicographic comparison, here of the `id` values of two
records (the order of UTF-8 byte sequences is the order of the code-point sequences). -/
def idLess (x y : StringMap) : Prop :=
  (mapIndex x "id").data < (mapIndex y "id").data

instance (x y : StringMap) : Decidable (idLess x y) := by
  unfold idLess; infer_instance

/-- The closure `func(i, j int) { cardsData[i], cardsData[j] = cardsData[j], cardsData[i] }`
on the backing array `arr`. -/
def swapAt (arr : List StringMap) (i j : Nat) : List StringMap :=
  (arr.set i (arr.getD j [])).set j (arr.getD i [])

/-- The comparator `func(i, j int) bool { return cardsData[i]["id"] < cardsData[j]["id"] }`.
It indexes `cardsData`, whose length is `n`, not `tableData`: an index at or past `n` panics
(the left operand is evaluated first).  `arr` is `tableData`; the two slices share their
backing array, so below both lengths `cardsData[i]` is `tableData[i]`. -/
def lessById (n : Nat) (arr : List StringMap) (i j : Nat) : Except Fault Bool :=
  if i < n then
    if j < n then .ok (decide (idLess (arr.getD i []) (arr.getD j [])))
    else .error (.indexRange j n)
  else .error (.indexRange i n)

/-- The inner loop of the library's insertion sort, started at `j`:
`for j := i; j > 0 && less(j, j-1); j-- { swap(j, j-1) }`. -/
def insertionInner (n : Nat) : List StringMap → Nat → Except Fault (List StringMap)
  | arr, 0 => .ok arr
  | arr, j + 1 =>
    match lessById n arr (j + 1) j with
    | .error e => .error e
    | .ok true => insertionInner n (swapAt arr (j + 1) j) j
    | .ok false => .ok arr

/-- The library call `sort.Slice(tableData, less)`, for a slice of at most 12 elements: the
library sorts so short a slice by insertion sort,
`for i := 1; i < b; i++ { for j := i; j > 0 && less(j, j-1); j-- { swap(j, j-1) } }`,
with `b = len(tableData)` (Go releases before 1.19 first run one gap-6 compare-and-swap pass
through the same `less` and `swap`; that pass is not modelled). -/
def sortSlice (n : Nat) (tableData : List StringMap) : Except Fault (List StringMap) :=
  (List.range' 1 (tableData.length - 1)).foldlM (fun data i => insertionInner n data i)
    tableData

/-- The Go slice expression `s[0:high]` on a slice with the given capacity and backing array:
it is in range when `high ≤ cap(s)`, whatever `len(s)`, and panics otherwise. -/
def sliceTo (high cap : Nat) (backing : List StringMap) : Except Fault (List StringMap) :=
  if high ≤ cap then .ok (backing.take high) else .error (.sliceBounds high cap)

/-- The sampling step of `handleIndexPage`:
`rand.Shuffle(len(cardsData), swap); tableData := cardsData[0:10]; sort.Slice(tableData, less)`.
`shuffle` is the outcome of `rand.Shuffle` and `cap` the capacity of `cardsData`; the slots of
the backing array past the length hold the zero value (the nil map, `[]`). -/
def sampleCards (shuffle : List StringMap → List StringMap) (cap : Nat)
    (cardsData : List StringMap) : Except Fault (List StringMap) :=
  let shuffled := shuffle cardsData
  match sliceTo 10 cap (shuffled ++ List.replicate (cap - shuffled.length) []) with
  | .error e => .error e
  | .ok tableData => sortSlice shuffled.length tableData

/-- A record holding only an `id`. -/
def idRecord (id : String) : StringMap := [("id", id)]

/-- Eleven enriched records, among them the ids `"100"` and `"99"`. -/
def elevenRecords : List StringMap :=
  ["1", "2", "3", "4", "100", "6", "7", "8", "99", "10", "11"].map idRecord

/-- Nine enriched records. -/
def nineRecords : List StringMap :=
  ["1", "2", "3", "4", "100", "6", "7", "8", "99"].map idRecord

/-- A card with the given id, foreign keys, name and image (other fields zero). -/
def mkCard (id typeId rarityId setId classId : Int) (name image : String) : hsapi.Card :=
  { CardSetID := setId, CardTypeID := typeId, ClassID := classId, Collectible := 0,
    CropImage := "", FlavorText := "", Health := 0, ID := id, Image := image, ImageGold := "",
    ManaCost := 0, Name := name, ParentID := 0, RarityID := rarityId, Slug := "", Text := "" }

end handlers

namespace hsapi

/-- OAuthResponse: the fields of `hsapi.OAuthResponse`. -/
structure OAuthResponse where
  AccessToken : String
  ExpiresIn : Int
  Sub : String
  TokenType : String
  deriving DecidableEq, Repr

/-- CardSearchResult: the fields of `hsapi.CardSearchResult`. -/
structure CardSearchResult where
  CardCount : Int
  Cards : List Card
  Page : Int
  PageCount : Int
  deriving DecidableEq, Repr

/-- HSClient: the state of `hsapi.HSClient`.  `TokenExpires` is a `time.Time`, held as the
number of nanoseconds since Go's zero time (so `IsZero` is `= 0` and `Before` is `<`);
`OAuthResponse` is the embedded pointer (`none` is nil); `Token`, `HostURL`, `RetryCount` and
`Debug` are the settings of the embedded `resty.Client` that the package writes. -/
structure HSClient where
  ClientID : String
  ClientSecret : String
  TokenExpires : Int
  OAuthResponse : Option OAuthResponse
  Token : String
  HostURL : String
  RetryCount : Nat
  Debug : Bool
  deriving DecidableEq, Repr

/-- What one attempt of an HTTP request comes back with: either an error and no HTTP
response (`failure`), or a response with its status code, its body, and the value decoded
into the `SetResult` target (`response`). -/
inductive Reply (α : Type) where
  | failure (err : String)
  | response (status : Nat) (body : String) (result : α)
  deriving DecidableEq, Repr

/-- The library method `Response.StatusCode()`: 0 when there is no HTTP response. -/
def Reply.StatusCode {α : Type} : Reply α → Nat
  | .failure _ => 0
  | .response status _ _ => status

/-- The errors the client functions return: the transport's own error, passed on, or
`errors.New(fmt.Sprintf("Upstream API provider returned %d: %s", status, body))`. -/
inductive ApiError where
  | transport (err : String)
  | upstream (status : Nat) (body : String)
  deriving DecidableEq, Repr

/-- The retry condition installed by `NewHSClient`:
`func(r *resty.Response, err error) bool { return r.StatusCode() == http.StatusTooManyRequests }`. -/
def retryCondition {α : Type} (r : Reply α) : Bool :=
  decide (r.StatusCode = 429)

/-- NewHSClient: `SetHostURL`, `SetRetryCount(3)`, the retry condition (`retryCondition`), no
token and the zero expiry. -/
def NewHSClient (id : String) (secret : String) (debug : Bool) : HSClient :=
  { ClientID := id, ClientSecret := secret, TokenExpires := 0, OAuthResponse := none,
    Token := "", HostURL := "https://us.api.blizzard.com", RetryCount := 3, Debug := debug }

/-- The library's retry loop around one request.  `transport k` is the reply to attempt `k`
(counted from 0) and `retries` the retries still allowed; with one retry condition installed
an attempt is repeated exactly when the condition holds of its reply.  Returns the last reply
and the number of attempts made. -/
def backoff {α : Type} (transport : Nat → Reply α) : Nat → Nat → Reply α × Nat
  | 0, k => (transport k, k + 1)
  | retries + 1, k =>
    if retryCondition (transport k) then backoff transport retries (k + 1)
    else (transport k, k + 1)

/-- The library call `Request.Execute` on a client with the given retry count. -/
def execute {α : Type} (retryCount : Nat) (transport : Nat → Reply α) : Reply α × Nat :=
  backoff transport retryCount 0

/-- Conversion of a wide integer to `int64`, wrapping around. -/
def wrapInt64 (x : Int) : Int :=
  (x + 2 ^ 63) % 2 ^ 64 - 2 ^ 63

/-- What `GetToken` leaves behind: the client, the number of POSTs sent to the token endpoint
and the returned error (`none` is nil). -/
structure TokenOutcome where
  client : HSClient
  requests : Nat
  err : Option ApiError
  deriving DecidableEq, Repr

/-- GetToken.  `now` is the `time.Now()` of the expiry test, `issued` the `time.Now()` read
after the response arrived, `tokenEndpoint` the replies of the token endpoint to successive
attempts.  The POST goes through `c.R()`, hence through the client's retry loop.
`time.Duration(c.ExpiresIn) * time.Second` is an `int64` product. -/
def GetToken (c : HSClient) (now issued : Int) (tokenEndpoint : Nat → Reply OAuthResponse) :
    TokenOutcome :=
  if c.TokenExpires = 0 ∨ c.TokenExpires < now then
    match execute c.RetryCount tokenEndpoint with
    | (.failure err, attempts) => ⟨c, attempts, some (.transport err)⟩
    | (.response status body result, attempts) =>
      if status ≠ 200 then ⟨c, attempts, some (.upstream status body)⟩
      else
        ⟨{ c with
            OAuthResponse := some result
            TokenExpires := issued + wrapInt64 (result.ExpiresIn * 1000000000)
            Token := result.AccessToken },
          attempts, none⟩
  else ⟨c, 0, none⟩

/-- What `SearchCards` and `GetMetadata` leave behind: the client, the POSTs sent to the token
endpoint, the GETs sent to the resource endpoint, and the returned pair (`.error e` is
`(nil, e)`, `.ok r` is `(r, nil)`). -/
structure ApiOutcome (α : Type) where
  client : HSClient
  tokenRequests : Nat
  resourceRequests : Nat
  result : Except ApiError α

/-- SearchCards.  `cardsEndpoint opts` gives the replies of `/hearthstone/cards` to successive
attempts of the GET with query parameters `opts`. -/
def SearchCards (c : HSClient) (opts : List (String × String)) (now issued : Int)
    (tokenEndpoint : Nat → Reply OAuthResponse)
    (cardsEndpoint : List (String × String) → Nat → Reply CardSearchResult) :
    ApiOutcome CardSearchResult :=
  match GetToken c now issued tokenEndpoint with
  | ⟨c1, posts, some err⟩ => ⟨c1, posts, 0, .error err⟩
  | ⟨c1, posts, none⟩ =>
    match execute c1.RetryCount (cardsEndpoint opts) with
    | (.failure err, attempts) => ⟨c1, posts, attempts, .error (.transport err)⟩
    | (.response status body result, attempts) =>
      if status ≠ 200 then ⟨c1, posts, attempts, .error (.upstream status body)⟩
      else ⟨c1, posts, attempts, .ok result⟩

/-- GetMetadata.  `metadataEndpoint query` gives the replies of `/hearthstone/metadata` to
successive attempts of the GET with the fixed query `locale=en_US`. -/
def GetMetadata (c : HSClient) (now issued : Int)
    (tokenEndpoint : Nat → Reply OAuthResponse)
    (metadataEndpoint : List (String × String) → Nat → Reply MetadataResult) :
    ApiOutcome MetadataResult :=
  match GetToken c now issued tokenEndpoint with
  | ⟨c1, posts, some err⟩ => ⟨c1, posts, 0, .error err⟩
  | ⟨c1, posts, none⟩ =>
    match execute c1.RetryCount (metadataEndpoint [("locale", "en_US")]) with
    | (.failure err, attempts) => ⟨c1, posts, attempts, .error (.transport err)⟩
    | (.response status body result, attempts) =>
      if status ≠ 200 then ⟨c1, posts, attempts, .error (.upstream status body)⟩
      else ⟨c1, posts, attempts, .ok result⟩

/-- A transport that answers the first `k` attempts with `busy` and every later one with
`final`. -/
def repliesAfter {α : Type} (k : Nat) (busy final : Reply α) : Nat → Reply α :=
  fun attempt => if attempt < k then busy else final

/-- A token response carrying the given access token and lifetime in seconds. -/
def mkOAuth (token : String) (expiresIn : Int) : OAuthResponse :=
  { AccessToken := token, ExpiresIn := expiresIn, Sub := "", TokenType := "bearer" }

/-- A search result holding the given cards on a single page. -/
def mkSearchResult (cards : List Card) : CardSearchResult :=
  { CardCount := cards.length, Cards := cards, Page := 1, PageCount := 1 }

/-- A client holding a token that expires at `expires`. -/
def clientWithToken (token : String) (expires : Int) : HSClient :=
  { NewHSClient "id" "secret" false with
    OAuthResponse := some (mkOAuth token 0)
    TokenExpires := expires
    Token := token }

end hsapi

/-! ## Theorems -/

namespace util

theorem contains_iff (s : List Int) (e : Int) : Contains s e = true ↔ e ∈ s := by
  induction s with
  | nil => simp [Contains]
  | cons a s ih =>
    by_cases h : a = e
    · simp [Contains, h]
    · have h2 : ¬ e = a := fun h3 => h h3.symm
      simp [Contains, h, h2, ih]

theorem contains_eq_false_iff (s : List Int) (e : Int) : Contains s e = false ↔ e ∉ s := by
  rw [← contains_iff]; cases Contains s e <;> simp

theorem getSetName_find (id : Int) (sets : List hsapi.Set) :
    GetSetName id sets =
      match sets.find? (fun m => decide (id ∈ m.AliasSetIds ∨ m.ID = id)) with
      | some m => m.Name
      | none => "" := by
  induction sets with
  | nil => rfl
  | cons m rest ih =>
    by_cases ha : id ∈ m.AliasSetIds
    · have hc := (contains_iff m.AliasSetIds id).2 ha
      simp [GetSetName, hc, List.find?, ha]
    · have hc := (contains_eq_false_iff m.AliasSetIds id).2 ha
      by_cases hi : m.ID = id
      · simp [GetSetName, hc, List.find?, hi]
      · simp only [GetSetName, hc, List.find?, ha, hi, or_self, decide_False, if_false]
        simpa using ih

/-- C1: for every id and every list of sets, `GetSetName id sets` is the name of the first
entry, in list order, whose alias ids contain `id` or whose primary id equals `id` (and `""`
when there is none); for the single entry `{id: 5, aliasIds: [105], name: "Classic"}` both
`GetSetName 5` and `GetSetName 105` give `"Classic"`. -/
theorem C1_getSetName_first_alias_or_primary (id : Int) (sets : List hsapi.Set) :
    (GetSetName id sets =
      match sets.find? (fun m => decide (id ∈ m.AliasSetIds ∨ m.ID = id)) with
      | some m => m.Name
      | none => "")
    ∧ GetSetName 5 [mkSet 5 [105] "Classic"] = "Classic"
    ∧ GetSetName 105 [mkSet 5 [105] "Classic"] = "Classic" :=
  ⟨getSetName_find id sets, by decide, by decide⟩

theorem getName_absent (id : Int) (l : List hsapi.GenericMetadata)
    (h : ∀ m ∈ l, m.ID ≠ id) : GetName id l = "" := by
  induction l with
  | nil => rfl
  | cons m rest ih =>
    have h1 : m.ID ≠ id := h m (List.mem_cons_self _ _)
    simp only [GetName, h1, if_false]
    exact ih (fun x hx => h x (List.mem_cons_of_mem _ hx))

theorem getRarityName_absent (id : Int) (l : List hsapi.Rarity)
    (h : ∀ m ∈ l, m.ID ≠ id) : GetRarityName id l = "" := by
  induction l with
  | nil => rfl
  | cons m rest ih =>
    have h1 : m.ID ≠ id := h m (List.mem_cons_self _ _)
    simp only [GetRarityName, h1, if_false]
    exact ih (fun x hx => h x (List.mem_cons_of_mem _ hx))

theorem getClassName_absent (id : Int) (l : List hsapi.Class)
    (h : ∀ m ∈ l, m.ID ≠ id) : GetClassName id l = "" := by
  induction l with
  | nil => rfl
  | cons m rest ih =>
    have h1 : m.ID ≠ id := h m (List.mem_cons_self _ _)
    simp only [GetClassName, h1, if_false]
    exact ih (fun x hx => h x (List.mem_cons_of_mem _ hx))

theorem getSetName_absent (id : Int) (l : List hsapi.Set)
    (h : ∀ m ∈ l, m.ID ≠ id ∧ id ∉ m.AliasSetIds) : GetSetName id l = "" := by
  induction l with
  | nil => rfl
  | cons m rest ih =>
    have h1 := h m (List.mem_cons_self _ _)
    have hc := (contains_eq_false_iff m.AliasSetIds id).2 h1.2
    simp only [GetSetName, hc, h1.1, if_false, Bool.false_eq_true]
    exact ih (fun x hx => h x (List.mem_cons_of_mem _ hx))

/-- C2: lookup totality.  The four lookups are total functions, and each returns `""` for
an id absent from its collection (for `GetSetName`: absent from every primary id and every
alias list); this covers the empty collection, e.g. `GetClassName 9999 [] = ""`. -/
theorem C2_lookups_absent_id_gives_empty (id : Int) (types : List hsapi.GenericMetadata)
    (rarities : List hsapi.Rarity) (classes : List hsapi.Class) (sets : List hsapi.Set) :
    ((∀ m ∈ types, m.ID ≠ id) → GetName id types = "")
    ∧ ((∀ m ∈ rarities, m.ID ≠ id) → GetRarityName id rarities = "")
    ∧ ((∀ m ∈ classes, m.ID ≠ id) → GetClassName id classes = "")
    ∧ ((∀ m ∈ sets, m.ID ≠ id ∧ id ∉ m.AliasSetIds) → GetSetName id sets = "")
    ∧ GetName id [] = "" ∧ GetRarityName id [] = "" ∧ GetClassName id [] = ""
    ∧ GetSetName id [] = "" ∧ GetClassName 9999 [] = "" :=
  ⟨getName_absent id types, getRarityName_absent id rarities, getClassName_absent id classes,
    getSetName_absent id sets, rfl, rfl, rfl, rfl, rfl⟩

/-- C2 at concrete collections: id 7 is absent from each of them. -/
theorem C2_lookups_absent_id_gives_empty_witness :
    GetName 7 [mkGeneric 4 "Minion", mkGeneric 5 "Spell"] = ""
    ∧ GetRarityName 7 [mkRarity 5 "Legendary"] = ""
    ∧ GetClassName 7 [mkClass 2 "Druid", mkClass 9 "Warlock"] = ""
    ∧ GetSetName 7 [mkSet 5 [105] "Classic", mkSet 9 [8, 10] "Naxx"] = "" :=
  have t := C2_lookups_absent_id_gives_empty 7 [mkGeneric 4 "Minion", mkGeneric 5 "Spell"]
    [mkRarity 5 "Legendary"] [mkClass 2 "Druid", mkClass 9 "Warlock"]
    [mkSet 5 [105] "Classic", mkSet 9 [8, 10] "Naxx"]
  ⟨t.1 (by decide), t.2.1 (by decide), t.2.2.1 (by decide), t.2.2.2.1 (by decide)⟩

theorem getName_first (id : Int) (l : List hsapi.GenericMetadata)
    (h : ∃ m ∈ l, m.ID = id) :
    ∃ pre m post, l = pre ++ m :: post ∧ (∀ x ∈ pre, x.ID ≠ id) ∧ m.ID = id
      ∧ GetName id l = m.Name ∧ ∀ post2, GetName id (pre ++ m :: post2) = m.Name := by
  induction l with
  | nil => obtain ⟨m, hm, _⟩ := h; cases hm
  | cons a rest ih =>
    by_cases ha : a.ID = id
    · exact ⟨[], a, rest, rfl, by simp, ha, by simp [GetName, ha], by simp [GetName, ha]⟩
    · have h2 : ∃ m ∈ rest, m.ID = id := by
        obtain ⟨m, hm, hid⟩ := h
        rcases List.mem_cons.1 hm with rfl | hm
        · exact absurd hid ha
        · exact ⟨m, hm, hid⟩
      obtain ⟨pre, m, post, he, hp, hid, hn, hall⟩ := ih h2
      refine ⟨a :: pre, m, post, by simp [he], ?_, hid, ?_, ?_⟩
      · intro x hx
        rcases List.mem_cons.1 hx with rfl | hx
        · exact ha
        · exact hp x hx
      · simp only [GetName, ha, if_false]; exact hn
      · intro post2
        simp only [List.cons_append, GetName, ha, if_false]; exact hall post2

theorem getRarityName_first (id : Int) (l : List hsapi.Rarity)
    (h : ∃ m ∈ l, m.ID = id) :
    ∃ pre m post, l = pre ++ m :: post ∧ (∀ x ∈ pre, x.ID ≠ id) ∧ m.ID = id
      ∧ GetRarityName id l = m.Name
      ∧ ∀ post2, GetRarityName id (pre ++ m :: post2) = m.Name := by
  induction l with
  | nil => obtain ⟨m, hm, _⟩ := h; cases hm
  | cons a rest ih =>
    by_cases ha : a.ID = id
    · exact ⟨[], a, rest, rfl, by simp, ha, by simp [GetRarityName, ha],
        by simp [GetRarityName, ha]⟩
    · have h2 : ∃ m ∈ rest, m.ID = id := by
        obtain ⟨m, hm, hid⟩ := h
        rcases List.mem_cons.1 hm with rfl | hm
        · exact absurd hid ha
        · exact ⟨m, hm, hid⟩
      obtain ⟨pre, m, post, he, hp, hid, hn, hall⟩ := ih h2
      refine ⟨a :: pre, m, post, by simp [he], ?_, hid, ?_, ?_⟩
      · intro x hx
        rcases List.mem_cons.1 hx with rfl | hx
        · exact ha
        · exact hp x hx
      · simp only [GetRarityName, ha, if_false]; exact hn
      · intro post2
        simp only [List.cons_append, GetRarityName, ha, if_false]; exact hall post2

theorem getClassName_first (id : Int) (l : List hsapi.Class)
    (h : ∃ m ∈ l, m.ID = id) :
    ∃ pre m post, l = pre ++ m :: post ∧ (∀ x ∈ pre, x.ID ≠ id) ∧ m.ID = id
      ∧ GetClassName id l = m.Name
      ∧ ∀ post2, GetClassName id (pre ++ m :: post2) = m.Name := by
  induction l with
  | nil => obtain ⟨m, hm, _⟩ := h; cases hm
  | cons a rest ih =>
    by_cases ha : a.ID = id
    · exact ⟨[], a, rest, rfl, by simp, ha, by simp [GetClassName, ha],
        by simp [GetClassName, ha]⟩
    · have h2 : ∃ m ∈ rest, m.ID = id := by
        obtain ⟨m, hm, hid⟩ := h
        rcases List.mem_cons.1 hm with rfl | hm
        · exact absurd hid ha
        · exact ⟨m, hm, hid⟩
      obtain ⟨pre, m, post, he, hp, hid, hn, hall⟩ := ih h2
      refine ⟨a :: pre, m, post, by simp [he], ?_, hid, ?_, ?_⟩
      · intro x hx
        rcases List.mem_cons.1 hx with rfl | hx
        · exact ha
        · exact hp x hx
      · simp only [GetClassName, ha, if_false]; exact hn
      · intro post2
        simp only [List.cons_append, GetClassName, ha, if_false]; exact hall post2

/-- C3: for every id and every collection holding at least one entry with that id,
`GetName`, `GetRarityName` and `GetClassName` each return the name of the first entry in
list order whose id equals the given id: the collection splits as `pre ++ m :: post` with no
match in `pre`, `m.ID = id`, the result is `m.Name`, and it stays `m.Name` whatever entries
follow `m`. -/
theorem C3_lookups_return_first_match (id : Int) (types : List hsapi.GenericMetadata)
    (rarities : List hsapi.Rarity) (classes : List hsapi.Class) :
    ((∃ m ∈ types, m.ID = id) →
      ∃ pre m post, types = pre ++ m :: post ∧ (∀ x ∈ pre, x.ID ≠ id) ∧ m.ID = id
        ∧ GetName id types = m.Name ∧ ∀ post2, GetName id (pre ++ m :: post2) = m.Name)
    ∧ ((∃ m ∈ rarities, m.ID = id) →
      ∃ pre m post, rarities = pre ++ m :: post ∧ (∀ x ∈ pre, x.ID ≠ id) ∧ m.ID = id
        ∧ GetRarityName id rarities = m.Name
        ∧ ∀ post2, GetRarityName id (pre ++ m :: post2) = m.Name)
    ∧ ((∃ m ∈ classes, m.ID = id) →
      ∃ pre m post, classes = pre ++ m :: post ∧ (∀ x ∈ pre, x.ID ≠ id) ∧ m.ID = id
        ∧ GetClassName id classes = m.Name
        ∧ ∀ post2, GetClassName id (pre ++ m :: post2) = m.Name) :=
  ⟨getName_first id types, getRarityName_first id rarities, getClassName_first id classes⟩

/-- C3 at concrete collections in which id 5 occurs (twice among the types). -/
theorem C3_lookups_return_first_match_witness :
    (∃ pre m post, [mkGeneric 4 "Minion", mkGeneric 5 "Spell", mkGeneric 5 "Late"]
        = pre ++ m :: post ∧ (∀ x ∈ pre, x.ID ≠ 5) ∧ m.ID = 5
        ∧ GetName 5 [mkGeneric 4 "Minion", mkGeneric 5 "Spell", mkGeneric 5 "Late"] = m.Name
        ∧ ∀ post2, GetName 5 (pre ++ m :: post2) = m.Name)
    ∧ (∃ pre m post, [mkRarity 5 "Legendary"] = pre ++ m :: post ∧ (∀ x ∈ pre, x.ID ≠ 5)
        ∧ m.ID = 5 ∧ GetRarityName 5 [mkRarity 5 "Legendary"] = m.Name
        ∧ ∀ post2, GetRarityName 5 (pre ++ m :: post2) = m.Name)
    ∧ (∃ pre m post, [mkClass 2 "Druid", mkClass 5 "Warlock"] = pre ++ m :: post
        ∧ (∀ x ∈ pre, x.ID ≠ 5) ∧ m.ID = 5
        ∧ GetClassName 5 [mkClass 2 "Druid", mkClass 5 "Warlock"] = m.Name
        ∧ ∀ post2, GetClassName 5 (pre ++ m :: post2) = m.Name) :=
  have t := C3_lookups_return_first_match 5
    [mkGeneric 4 "Minion", mkGeneric 5 "Spell", mkGeneric 5 "Late"]
    [mkRarity 5 "Legendary"] [mkClass 2 "Druid", mkClass 5 "Warlock"]
  ⟨t.1 ⟨mkGeneric 5 "Spell", by decide, rfl⟩, t.2.1 ⟨mkRarity 5 "Legendary", by decide, rfl⟩,
    t.2.2 ⟨mkClass 5 "Warlock", by decide, rfl⟩⟩

theorem getSetName_eq_twoPass (id : Int) (sets : List hsapi.Set)
    (h : ∀ m1 ∈ sets, ∀ m2 ∈ sets, m1.ID = id → id ∈ m2.AliasSetIds → m1 = m2) :
    GetSetName id sets = twoPassSetName id sets := by
  induction sets with
  | nil => rfl
  | cons m rest ih =>
    have hrest : ∀ m1 ∈ rest, ∀ m2 ∈ rest, m1.ID = id → id ∈ m2.AliasSetIds → m1 = m2 :=
      fun m1 h1 m2 h2 => h m1 (List.mem_cons_of_mem _ h1) m2 (List.mem_cons_of_mem _ h2)
    by_cases ha : id ∈ m.AliasSetIds
    · have hc := (contains_iff m.AliasSetIds id).2 ha
      simp [GetSetName, twoPassSetName, List.find?, hc]
    · have hc := (contains_eq_false_iff m.AliasSetIds id).2 ha
      by_cases hi : m.ID = id
      · have hnone : rest.find? (fun x => Contains x.AliasSetIds id) = none := by
          rw [List.find?_eq_none]
          intro x hx hcx
          have hxa := (contains_iff x.AliasSetIds id).1 hcx
          have := h m (List.mem_cons_self _ _) x (List.mem_cons_of_mem _ hx) hi hxa
          exact ha (this ▸ hxa)
        simp [GetSetName, twoPassSetName, List.find?, hc, hi, hnone]
      · have := ih hrest
        simp only [GetSetName, hc, hi, if_false, Bool.false_eq_true]
        rw [this]
        simp [twoPassSetName, List.find?, hc, hi]

/-- C10: `GetSetName` is a single pass (per entry: alias list first, then that entry's
primary id, then on to the next entry); it differs from the two-pass lookup "all alias lists
first, then all primary ids" on `[{id: 7, aliasIds: [], name: "A"}, {id: 9, aliasIds: [7],
name: "B"}]` at id 7 (`"A"` against `"B"`); and the two agree on every list in which no id
is both the primary id of one entry and an alias of another. -/
theorem C10_single_pass_vs_two_pass :
    (∀ id m rest, GetSetName id (m :: rest) =
        if Contains m.AliasSetIds id then m.Name
        else if m.ID = id then m.Name else GetSetName id rest)
    ∧ GetSetName 7 [mkSet 7 [] "A", mkSet 9 [7] "B"] = "A"
    ∧ twoPassSetName 7 [mkSet 7 [] "A", mkSet 9 [7] "B"] = "B"
    ∧ (∃ id sets, GetSetName id sets ≠ twoPassSetName id sets)
    ∧ (∀ sets : List hsapi.Set,
        (∀ x : Int, ∀ m1 ∈ sets, ∀ m2 ∈ sets,
          m1.ID = x → x ∈ m2.AliasSetIds → m1 = m2) →
        ∀ id, GetSetName id sets = twoPassSetName id sets) :=
  ⟨fun _ _ _ => rfl, by decide, by decide,
    ⟨7, [mkSet 7 [] "A", mkSet 9 [7] "B"], by decide⟩,
    fun sets h id => getSetName_eq_twoPass id sets (h id)⟩

/-- C10 at a concrete list without a primary/alias clash, queried at an alias. -/
theorem C10_single_pass_vs_two_pass_witness :
    GetSetName 105 [mkSet 5 [105] "Classic", mkSet 9 [8] "Naxx"]
      = twoPassSetName 105 [mkSet 5 [105] "Classic", mkSet 9 [8] "Naxx"] :=
  C10_single_pass_vs_two_pass.2.2.2.2 [mkSet 5 [105] "Classic", mkSet 9 [8] "Naxx"]
    (by
      intro x m1 h1 m2 h2 hid hal
      simp only [List.mem_cons, List.mem_singleton, List.not_mem_nil, or_false] at h1 h2
      rcases h1 with rfl | rfl <;> rcases h2 with rfl | rfl <;>
        simp_all [mkSet]) 105

end util

namespace handlers

theorem enrichCards_foldl (metadata : hsapi.MetadataResult) (cards : List hsapi.Card)
    (acc : List StringMap) :
    cards.foldl (fun cardsData card => cardsData ++ [cardRecord metadata card]) acc
      = acc ++ cards.map (cardRecord metadata) := by
  induction cards generalizing acc with
  | nil => simp
  | cons c rest ih => simp [List.foldl, ih]

theorem enrichCards_eq_map (metadata : hsapi.MetadataResult) (cards : List hsapi.Card) :
    enrichCards metadata cards = cards.map (cardRecord metadata) := by
  simp [enrichCards, enrichCards_foldl]

theorem cardRecord_fields (metadata : hsapi.MetadataResult) (card : hsapi.Card) :
    mapIndex (cardRecord metadata card) "id" = FormatInt card.ID
    ∧ mapIndex (cardRecord metadata card) "name" = card.Name
    ∧ mapIndex (cardRecord metadata card) "image" = card.Image
    ∧ mapIndex (cardRecord metadata card) "type" = util.GetName card.CardTypeID metadata.Types
    ∧ mapIndex (cardRecord metadata card) "rarity"
        = util.GetRarityName card.RarityID metadata.Rarities
    ∧ mapIndex (cardRecord metadata card) "set" = util.GetSetName card.CardSetID metadata.Sets
    ∧ mapIndex (cardRecord metadata card) "class"
        = util.GetClassName card.ClassID metadata.Classes := by
  refine ⟨?_, ?_, ?_, ?_, ?_, ?_, ?_⟩ <;> simp [cardRecord, mapIndex]

theorem digitChar_eq_ofNat (d : Nat) (h : d < 10) : Nat.digitChar d = Char.ofNat (d + 48) := by
  interval_cases d <;> rfl

theorem toDigitsCore_eq_digits : ∀ (fuel n : Nat) (ds : List Char), n < fuel → 0 < n →
    Nat.toDigitsCore 10 fuel n ds
      = (Nat.digits 10 n).reverse.map (fun d => Char.ofNat (d + 48)) ++ ds := by
  intro fuel
  induction fuel with
  | zero => intro n ds h; omega
  | succ fuel ih =>
    intro n ds hlt hpos
    have hd : Nat.digits 10 n = (n % 10) :: Nat.digits 10 (n / 10) :=
      Nat.digits_def' (by decide) hpos
    have hc : Nat.digitChar (n % 10) = Char.ofNat (n % 10 + 48) :=
      digitChar_eq_ofNat _ (Nat.mod_lt _ (by decide))
    by_cases hq : n / 10 = 0
    · simp [Nat.toDigitsCore, hq, hd, hc]
    · have := ih (n / 10) (Nat.digitChar (n % 10) :: ds) (by omega) (by omega)
      rw [hc] at this
      simp [Nat.toDigitsCore, hq, hd, this, hc]

theorem formatInt_data (i : Int) :
    (FormatInt i).data = (if i < 0 then ['-'] else [])
      ++ (if i = 0 then ['0']
          else (Nat.digits 10 i.natAbs).reverse.map (fun d => Char.ofNat (d + 48))) := by
  by_cases h0 : i = 0
  · subst h0; rfl
  · have hpos : 0 < i.natAbs := Int.natAbs_pos.2 h0
    have := toDigitsCore_eq_digits (i.natAbs + 1) i.natAbs [] (by omega) hpos
    by_cases hneg : i < 0
    · simp [FormatInt, hneg, h0, Nat.toDigits, this]
    · simp [FormatInt, hneg, h0, Nat.toDigits, this]

/-- C4: enrichment is a length- and order-preserving map.  For every list of cards and every
metadata result the loop yields exactly as many records as cards, the i-th record is the one
built from the i-th card, and that record has `id` = the base-10 string of the card id (a `-`
for a negative id, then the base-10 digits of its absolute value, most significant first, as
the characters `0`..`9`; the single character `0` for zero), `name` and `image` copied, and
`type`, `rarity`, `set`, `class` = `GetName`, `GetRarityName`, `GetSetName`, `GetClassName` of
the card's foreign keys; metadata with the single rarity `{id: 5, name: "Legendary"}` and the
card `{id: 42, rarityId: 5, name: "Ragnaros"}` give `id = "42"`, `rarity = "Legendary"`,
`name = "Ragnaros"`. -/
theorem C4_enrichment_is_orderly_map (metadata : hsapi.MetadataResult)
    (cards : List hsapi.Card) :
    (enrichCards metadata cards).length = cards.length
    ∧ (∀ i : Nat, (enrichCards metadata cards)[i]? = (cards[i]?).map (cardRecord metadata))
    ∧ (∀ card : hsapi.Card,
        mapIndex (cardRecord metadata card) "id" = FormatInt card.ID
        ∧ mapIndex (cardRecord metadata card) "name" = card.Name
        ∧ mapIndex (cardRecord metadata card) "image" = card.Image
        ∧ mapIndex (cardRecord metadata card) "type"
            = util.GetName card.CardTypeID metadata.Types
        ∧ mapIndex (cardRecord metadata card) "rarity"
            = util.GetRarityName card.RarityID metadata.Rarities
        ∧ mapIndex (cardRecord metadata card) "set"
            = util.GetSetName card.CardSetID metadata.Sets
        ∧ mapIndex (cardRecord metadata card) "class"
            = util.GetClassName card.ClassID metadata.Classes)
    ∧ (∀ card : hsapi.Card,
        (mapIndex (cardRecord metadata card) "id").data
          = (if card.ID < 0 then ['-'] else [])
            ++ (if card.ID = 0 then ['0']
                else (Nat.digits 10 card.ID.natAbs).reverse.map
                  (fun d => Char.ofNat (d + 48))))
    ∧ enrichCards ⟨[], [util.mkRarity 5 "Legendary"], [], []⟩
          [mkCard 42 0 5 0 0 "Ragnaros" ""]
        = [[("id", "42"), ("name", "Ragnaros"), ("type", ""), ("image", ""),
            ("rarity", "Legendary"), ("set", ""), ("class", "")]] := by
  refine ⟨?_, ?_, cardRecord_fields metadata, ?_, by decide⟩
  · simp [enrichCards_eq_map]
  · intro i
    simp [enrichCards_eq_map]
  · intro card
    rw [(cardRecord_fields metadata card).1]
    exact formatInt_data card.ID

theorem not_idLess_iff (x y : StringMap) :
    ¬ idLess y x ↔ mapIndex x "id" ≤ mapIndex y "id" := by
  unfold idLess
  rw [← not_lt, String.lt_iff_toList_lt]
  rfl

theorem swapAt_adjacent (pre : List StringMap) (a b : StringMap) (suf : List StringMap) :
    swapAt (pre ++ a :: b :: suf) (pre.length + 1) pre.length = pre ++ b :: a :: suf := by
  induction pre with
  | nil => simp [swapAt]
  | cons c pre ih =>
    simp only [swapAt] at ih ⊢
    simp only [List.cons_append, List.length_cons, List.getD_cons_succ, List.set_cons_succ, ih]

theorem getD_adjacent (pre : List StringMap) (a b : StringMap) (suf : List StringMap) :
    (pre ++ a :: b :: suf).getD pre.length [] = a
    ∧ (pre ++ a :: b :: suf).getD (pre.length + 1) [] = b := by
  induction pre with
  | nil => simp
  | cons c pre ih => simpa using ih

theorem lessById_adjacent (n : Nat) (pre : List StringMap) (a b : StringMap)
    (suf : List StringMap) (h : pre.length + 1 < n) :
    lessById n (pre ++ a :: b :: suf) (pre.length + 1) pre.length
      = .ok (decide (idLess b a)) := by
  have h2 : pre.length < n := by omega
  obtain ⟨ha, hb⟩ := getD_adjacent pre a b suf
  simp only [lessById, h, h2, if_true, ha, hb]

theorem not_idLess_trans {x y z : StringMap} (h1 : ¬ idLess y x) (h2 : ¬ idLess z y) :
    ¬ idLess z x := by
  rw [not_idLess_iff] at *
  exact le_trans h1 h2

theorem not_idLess_of_idLess {x y : StringMap} (h : idLess x y) : ¬ idLess y x := by
  rw [not_idLess_iff]
  unfold idLess at h
  exact le_of_lt (String.lt_iff_toList_lt.2 h)

theorem insertionInner_ok (n : Nat) :
    ∀ (j : Nat) (pre : List StringMap) (x : StringMap) (suf : List StringMap),
      pre.length = j → j < n →
      ∃ r, insertionInner n (pre ++ x :: suf) j = .ok (r ++ suf) ∧ r.Perm (pre ++ [x])
        ∧ (pre.Pairwise (fun a b => ¬ idLess b a) → r.Pairwise (fun a b => ¬ idLess b a)) := by
  intro j
  induction j with
  | zero =>
    intro pre x suf hlen _
    have hpre : pre = [] := List.length_eq_zero.1 hlen
    subst hpre
    exact ⟨[x], by simp [insertionInner], List.Perm.refl _, fun _ => List.pairwise_singleton _ _⟩
  | succ j ih =>
    intro pre x suf hlen hn
    rcases List.eq_nil_or_concat pre with hnil | ⟨pre1, p, hp⟩
    · subst hnil; simp at hlen
    · rw [List.concat_eq_append] at hp
      subst hp
      have hl : pre1.length = j := by simpa using hlen
      have harr : pre1 ++ [p] ++ x :: suf = pre1 ++ p :: x :: suf := by simp
      rw [harr]
      have hless := lessById_adjacent n pre1 p x suf (by omega)
      rw [hl] at hless
      by_cases hlt : idLess x p
      · have hsw := swapAt_adjacent pre1 p x suf
        rw [hl] at hsw
        obtain ⟨r, hr, hperm, hsorted⟩ := ih pre1 x (p :: suf) hl (by omega)
        refine ⟨r ++ [p], ?_, ?_, ?_⟩
        · simp only [insertionInner, hless, hlt, decide_True, hsw, hr]
          simp
        · have h1 : (r ++ [p]).Perm (pre1 ++ [x] ++ [p]) := hperm.append_right [p]
          refine h1.trans ?_
          simp only [List.append_assoc]
          exact List.Perm.append_left pre1 (List.Perm.swap p x [])
        · intro hs
          rw [List.pairwise_append] at hs ⊢
          obtain ⟨hs1, _, hs3⟩ := hs
          refine ⟨hsorted hs1, List.pairwise_singleton _ _, ?_⟩
          intro a ha b hb
          have hb2 : b = p := by simpa using hb
          subst hb2
          have ha2 : a ∈ pre1 ++ [x] := hperm.mem_iff.1 ha
          rcases List.mem_append.1 ha2 with ha3 | ha3
          · exact hs3 a ha3 b (by simp)
          · have : a = x := by simpa using ha3
            subst this
            exact not_idLess_of_idLess hlt
      · refine ⟨pre1 ++ [p] ++ [x], ?_, List.Perm.refl _, ?_⟩
        · simp only [insertionInner, hless, hlt, decide_False]
          simp
        · intro hs
          rw [List.pairwise_append]
          refine ⟨hs, List.pairwise_singleton _ _, ?_⟩
          intro a ha b hb
          have hb2 : b = x := by simpa using hb
          subst hb2
          rw [List.pairwise_append] at hs
          rcases List.mem_append.1 ha with ha3 | ha3
          · exact not_idLess_trans (hs.2.2 a ha3 p (by simp)) hlt
          · have : a = p := by simpa using ha3
            subst this
            exact hlt

theorem sortLoop_ok (n : Nat) :
    ∀ (mid pre rest : List StringMap), pre.length + mid.length ≤ n →
      pre.Pairwise (fun a b => ¬ idLess b a) →
      ∃ r, (List.range' pre.length mid.length).foldlM
            (fun data i => insertionInner n data i) (pre ++ mid ++ rest) = .ok (r ++ rest)
        ∧ r.Perm (pre ++ mid) ∧ r.Pairwise (fun a b => ¬ idLess b a) := by
  intro mid
  induction mid with
  | nil =>
    intro pre rest _ hs
    exact ⟨pre, by simp [List.range', pure, Except.pure], by simp, hs⟩
  | cons x mid ih =>
    intro pre rest hn hs
    have hn2 : pre.length + (mid.length + 1) ≤ n := by simpa using hn
    obtain ⟨r1, hr1, hperm1, hsorted1⟩ :=
      insertionInner_ok n pre.length pre x (mid ++ rest) rfl (by omega)
    have hlen1 : r1.length = pre.length + 1 := by
      have := hperm1.length_eq
      simpa using this
    obtain ⟨r, hr, hperm, hsorted⟩ := ih r1 rest (by omega) (hsorted1 hs)
    refine ⟨r, ?_, ?_, hsorted⟩
    · have harr : pre ++ x :: mid ++ rest = pre ++ x :: (mid ++ rest) := by simp
      rw [List.length_cons, List.range'_succ, List.foldlM_cons, harr, hr1]
      rw [hlen1, List.append_assoc] at hr
      exact hr
    · refine hperm.trans ?_
      have : (r1 ++ mid).Perm (pre ++ [x] ++ mid) := hperm1.append_right mid
      simpa using this

theorem sortLoop_fault (n : Nat) :
    ∀ (mid pre rest : List StringMap), 1 ≤ pre.length → pre.length ≤ max n 1 →
      max n 1 < pre.length + mid.length →
      (List.range' pre.length mid.length).foldlM
          (fun data i => insertionInner n data i) (pre ++ mid ++ rest)
        = .error (.indexRange (max n 1) n) := by
  intro mid
  induction mid with
  | nil =>
    intro pre rest _ h2 h3
    simp at h3
    omega
  | cons x mid ih =>
    intro pre rest h1 h2 h3
    have h3b : max n 1 < pre.length + (mid.length + 1) := by simpa using h3
    rw [List.length_cons, List.range'_succ, List.foldlM_cons]
    by_cases heq : pre.length = max n 1
    · obtain ⟨j, hj⟩ : ∃ j, pre.length = j + 1 := ⟨pre.length - 1, by omega⟩
      have hge : ¬ j + 1 < n := by
        have : n ≤ max n 1 := le_max_left n 1
        omega
      rw [hj]
      simp only [insertionInner, lessById, hge, if_false]
      rw [← hj, heq]
      rfl
    · have hlt : pre.length < n := by
        rcases Nat.le_total n 1 with hle | hle
        · rw [max_eq_right hle] at h2 heq; omega
        · rw [max_eq_left hle] at h2 heq; omega
      obtain ⟨r1, hr1, hperm1, _⟩ :=
        insertionInner_ok n pre.length pre x (mid ++ rest) rfl hlt
      have hlen1 : r1.length = pre.length + 1 := by
        have := hperm1.length_eq
        simpa using this
      have harr : pre ++ x :: mid ++ rest = pre ++ x :: (mid ++ rest) := by simp
      rw [harr, hr1]
      have := ih r1 rest (by omega) (by omega) (by omega)
      rw [hlen1, List.append_assoc] at this
      exact this

theorem sortSlice_ok (n : Nat) (tableData : List StringMap) (h : tableData.length ≤ n) :
    ∃ r, sortSlice n tableData = .ok r ∧ r.Perm tableData
      ∧ r.Pairwise (fun a b => ¬ idLess b a) := by
  cases tableData with
  | nil => exact ⟨[], by simp [sortSlice, List.range', pure, Except.pure], by simp, by simp⟩
  | cons a mid =>
    have hn : [a].length + mid.length ≤ n := by simp at h ⊢; omega
    obtain ⟨r, hr, hperm, hsorted⟩ := sortLoop_ok n mid [a] [] hn (List.pairwise_singleton _ _)
    refine ⟨r, ?_, by simpa using hperm, hsorted⟩
    simpa [sortSlice] using hr

theorem sortSlice_fault (n : Nat) (tableData : List StringMap)
    (h : max n 1 < tableData.length) :
    sortSlice n tableData = .error (.indexRange (max n 1) n) := by
  cases tableData with
  | nil => simp at h
  | cons a mid =>
    have := sortLoop_fault n mid [a] [] (by simp) (by simp) (by simp at h ⊢; omega)
    simpa [sortSlice] using this

/-- C5: for every input of at least 10 enriched cards and every shuffle outcome (any
permutation of the input), the sampler returns a list of exactly 10 records, which is a
reordering of the first 10 records of the shuffled input and is sorted non-decreasing by the
`id` field compared as a string in lexical order; the order is not numeric: `"100"` sorts
before `"99"`, as in the sample of `elevenRecords`. -/
theorem C5_sampler_ten_sorted_by_string_id (shuffle : List StringMap → List StringMap)
    (cap : Nat) (cardsData : List StringMap)
    (hshuffle : (shuffle cardsData).Perm cardsData) (hlen : 10 ≤ cardsData.length)
    (hcap : cardsData.length ≤ cap) :
    (∃ out, sampleCards shuffle cap cardsData = .ok out
      ∧ out.length = 10
      ∧ out.Perm ((shuffle cardsData).take 10)
      ∧ out.Pairwise (fun a b => mapIndex a "id" ≤ mapIndex b "id")
      ∧ out.Pairwise (fun a b => ¬ idLess b a))
    ∧ idLess (idRecord "100") (idRecord "99")
    ∧ sampleCards List.reverse 16 elevenRecords
        = .ok (["10", "100", "11", "2", "3", "4", "6", "7", "8", "99"].map idRecord) := by
  refine ⟨?_, by decide, by rfl⟩
  have hl : (shuffle cardsData).length = cardsData.length := hshuffle.length_eq
  have htake : ((shuffle cardsData ++ List.replicate (cap - (shuffle cardsData).length) []).take 10)
      = (shuffle cardsData).take 10 := by
    rw [List.take_append_of_le_length (by omega)]
  have htl : ((shuffle cardsData).take 10).length = 10 := by
    rw [List.length_take]; omega
  obtain ⟨r, hr, hperm, hsorted⟩ :=
    sortSlice_ok (shuffle cardsData).length ((shuffle cardsData).take 10) (by omega)
  refine ⟨r, ?_, ?_, hperm, ?_, hsorted⟩
  · have h10 : 10 ≤ cap := by omega
    simp only [sampleCards, sliceTo, h10, if_true, htake, hr]
  · rw [hperm.length_eq, htl]
  · exact hsorted.imp (fun h => (not_idLess_iff _ _).1 h)

/-- C5 at eleven concrete records, shuffled by reversal, in a slice of capacity 16. -/
theorem C5_sampler_ten_sorted_by_string_id_witness :
    ∃ out, sampleCards List.reverse 16 elevenRecords = .ok out
      ∧ out.length = 10
      ∧ out.Perm ((List.reverse elevenRecords).take 10)
      ∧ out.Pairwise (fun a b => mapIndex a "id" ≤ mapIndex b "id")
      ∧ out.Pairwise (fun a b => ¬ idLess b a) :=
  (C5_sampler_ten_sorted_by_string_id List.reverse 16 elevenRecords
    (List.reverse_perm elevenRecords) (by decide) (by decide)).1

/-- C6: for every input of fewer than 10 enriched cards (the empty input included) and every
shuffle outcome the sampler returns no result: taking the first 10 elements is an
out-of-bounds access and the operation faults.  The panic is "slice bounds out of range" at
`cardsData[0:10]` when the capacity is below 10, and otherwise "index out of range" at the
comparator's `cardsData[i]`, which reads the ten sliced elements through the shorter
`cardsData`. -/
theorem C6_sampler_faults_below_ten (shuffle : List StringMap → List StringMap)
    (cap : Nat) (cardsData : List StringMap)
    (hshuffle : (shuffle cardsData).Perm cardsData) (hlen : cardsData.length < 10) :
    (∃ e, sampleCards shuffle cap cardsData = .error e)
    ∧ (∀ out, sampleCards shuffle cap cardsData ≠ .ok out)
    ∧ sampleCards shuffle cap cardsData =
        (if cap < 10 then .error (.sliceBounds 10 cap)
         else .error (.indexRange (max cardsData.length 1) cardsData.length)) := by
  have hl : (shuffle cardsData).length = cardsData.length := hshuffle.length_eq
  have hmain : sampleCards shuffle cap cardsData =
      (if cap < 10 then .error (.sliceBounds 10 cap)
       else .error (.indexRange (max cardsData.length 1) cardsData.length)) := by
    by_cases hc : cap < 10
    · have h10 : ¬ 10 ≤ cap := by omega
      simp only [sampleCards, sliceTo, h10, hc, if_true, if_false]
    · have h10 : 10 ≤ cap := by omega
      have hfault := sortSlice_fault (shuffle cardsData).length
        ((shuffle cardsData ++ List.replicate (cap - (shuffle cardsData).length) []).take 10)
        (by
          rw [List.length_take, List.length_append, List.length_replicate, hl]
          have : max cardsData.length 1 < 10 := max_lt hlen (by decide)
          omega)
      rw [hl] at hfault
      simp only [sampleCards, sliceTo, h10, hc, if_true, if_false, hl, hfault]
  refine ⟨?_, ?_, hmain⟩
  · rw [hmain]
    by_cases hc : cap < 10
    · exact ⟨.sliceBounds 10 cap, by simp only [hc, if_true]⟩
    · exact ⟨.indexRange (max cardsData.length 1) cardsData.length,
        by simp only [hc, if_false]⟩
  · intro out
    rw [hmain]
    by_cases hc : cap < 10
    · simp only [hc, if_true]
      exact fun h => by cases h
    · simp only [hc, if_false]
      exact fun h => by cases h

/-- C6 at concrete records: eight of them in a slice of capacity 8 (the slice expression
panics) and nine of them in a slice of capacity 16 (the comparator's index panics), both
shuffled by reversal. -/
theorem C6_sampler_faults_below_ten_witness :
    sampleCards List.reverse 8 (nineRecords.take 8) = .error (.sliceBounds 10 8)
    ∧ sampleCards List.reverse 16 nineRecords = .error (.indexRange 9 9) :=
  ⟨(C6_sampler_faults_below_ten List.reverse 8 (nineRecords.take 8)
      (List.reverse_perm _) (by decide)).2.2,
    (C6_sampler_faults_below_ten List.reverse 16 nineRecords
      (List.reverse_perm _) (by decide)).2.2⟩

end handlers

namespace hsapi

theorem retryCondition_iff {α : Type} (r : Reply α) :
    retryCondition r = true ↔ r.StatusCode = 429 := by
  simp [retryCondition]

theorem backoff_stop {α : Type} (transport : Nat → Reply α) (retries k : Nat)
    (h : (transport k).StatusCode ≠ 429) :
    backoff transport retries k = (transport k, k + 1) := by
  cases retries with
  | zero => rfl
  | succ r => simp [backoff, retryCondition, h]

theorem backoff_after {α : Type} (transport : Nat → Reply α) :
    ∀ (m retries k : Nat), m ≤ retries →
      (∀ i, i < m → (transport (k + i)).StatusCode = 429) →
      (m = retries ∨ (transport (k + m)).StatusCode ≠ 429) →
      backoff transport retries k = (transport (k + m), k + m + 1) := by
  intro m
  induction m with
  | zero =>
    intro retries k _ _ hstop
    rcases hstop with h | h
    · subst h; rfl
    · exact backoff_stop transport retries k h
  | succ m ih =>
    intro retries k hle hbusy hstop
    obtain ⟨r, hr⟩ : ∃ r, retries = r + 1 := ⟨retries - 1, by omega⟩
    subst hr
    have h0 : (transport k).StatusCode = 429 := by simpa using hbusy 0 (by omega)
    have hrec := ih r (k + 1) (by omega)
      (fun i hi => by
        have := hbusy (i + 1) (by omega)
        rw [show k + 1 + i = k + (i + 1) by omega]
        exact this)
      (by
        rcases hstop with h | h
        · left; omega
        · right
          rw [show k + 1 + m = k + (m + 1) by omega]
          exact h)
    simp only [backoff, retryCondition, h0, decide_True, if_true, hrec]
    rw [show k + 1 + m = k + (m + 1) by omega]

theorem backoff_attempts {α : Type} (transport : Nat → Reply α) :
    ∀ (retries k : Nat), k + 1 ≤ (backoff transport retries k).2
      ∧ (backoff transport retries k).2 ≤ k + retries + 1 := by
  intro retries
  induction retries with
  | zero => intro k; simp [backoff]
  | succ r ih =>
    intro k
    by_cases h : retryCondition (transport k) = true
    · have := ih (k + 1)
      simp only [backoff, h, if_true]
      omega
    · simp only [backoff, h, if_false, Bool.false_eq_true]
      omega

theorem execute_attempts {α : Type} (retryCount : Nat) (transport : Nat → Reply α) :
    1 ≤ (execute retryCount transport).2 ∧ (execute retryCount transport).2 ≤ retryCount + 1 := by
  have := backoff_attempts transport retryCount 0
  simpa [execute] using this

theorem execute_stop {α : Type} (retryCount : Nat) (transport : Nat → Reply α)
    (h : (transport 0).StatusCode ≠ 429) :
    execute retryCount transport = (transport 0, 1) := by
  simpa [execute] using backoff_stop transport retryCount 0 h

theorem execute_after {α : Type} (retryCount : Nat) (transport : Nat → Reply α) (m : Nat)
    (hle : m ≤ retryCount) (hbusy : ∀ i, i < m → (transport i).StatusCode = 429)
    (hstop : m = retryCount ∨ (transport m).StatusCode ≠ 429) :
    execute retryCount transport = (transport m, m + 1) := by
  have := backoff_after transport m retryCount 0 hle (by simpa using hbusy) (by simpa using hstop)
  simpa [execute] using this

theorem backoff_exact {α : Type} (transport : Nat → Reply α) :
    ∀ (retries k : Nat),
      (backoff transport retries k).1 = transport ((backoff transport retries k).2 - 1)
      ∧ (∀ j, k ≤ j → j + 1 < (backoff transport retries k).2 →
          (transport j).StatusCode = 429)
      ∧ ((backoff transport retries k).2 < k + retries + 1 →
          (transport ((backoff transport retries k).2 - 1)).StatusCode ≠ 429) := by
  intro retries
  induction retries with
  | zero =>
    intro k
    refine ⟨by simp [backoff], ?_, ?_⟩
    · intro j hj hlt
      simp only [backoff] at hlt
      omega
    · intro hlt
      simp only [backoff] at hlt
      omega
  | succ r ih =>
    intro k
    by_cases h : retryCondition (transport k) = true
    · obtain ⟨h1, h2, h3⟩ := ih (k + 1)
      have hb : backoff transport (r + 1) k = backoff transport r (k + 1) := by
        simp only [backoff, h, if_true]
      rw [hb]
      refine ⟨h1, ?_, ?_⟩
      · intro j hj hlt
        rcases Nat.eq_or_lt_of_le hj with heq | hgt
        · subst heq
          exact (retryCondition_iff _).1 h
        · exact h2 j (by omega) hlt
      · intro hlt
        exact h3 (by omega)
    · have hb : backoff transport (r + 1) k = (transport k, k + 1) := by
        simp only [backoff, h, if_false, Bool.false_eq_true]
      rw [hb]
      refine ⟨by simp, ?_, ?_⟩
      · intro j hj hlt
        simp only at hlt
        omega
      · intro _
        simp only [Nat.add_sub_cancel]
        exact fun h429 => h ((retryCondition_iff _).2 h429)

theorem execute_exact {α : Type} (retryCount : Nat) (transport : Nat → Reply α) :
    (execute retryCount transport).1 = transport ((execute retryCount transport).2 - 1)
    ∧ (∀ j, j + 1 < (execute retryCount transport).2 → (transport j).StatusCode = 429)
    ∧ ((execute retryCount transport).2 < retryCount + 1 →
        (transport ((execute retryCount transport).2 - 1)).StatusCode ≠ 429) := by
  obtain ⟨h1, h2, h3⟩ := backoff_exact transport retryCount 0
  refine ⟨h1, fun j hj => h2 j (Nat.zero_le j) hj, fun h => h3 (by simpa [execute] using h)⟩

theorem getToken_valid (c : HSClient) (now issued : Int)
    (tokenEndpoint : Nat → Reply OAuthResponse)
    (h : c.TokenExpires ≠ 0 ∧ now ≤ c.TokenExpires) :
    GetToken c now issued tokenEndpoint = ⟨c, 0, none⟩ := by
  have h2 : ¬ (c.TokenExpires = 0 ∨ c.TokenExpires < now) := by
    rintro (h3 | h3)
    · exact h.1 h3
    · omega
  simp only [GetToken, h2, if_false]

theorem getToken_refresh (c : HSClient) (now issued : Int)
    (tokenEndpoint : Nat → Reply OAuthResponse)
    (h : ¬ (c.TokenExpires ≠ 0 ∧ now ≤ c.TokenExpires)) :
    GetToken c now issued tokenEndpoint =
      match execute c.RetryCount tokenEndpoint with
      | (.failure err, attempts) => ⟨c, attempts, some (.transport err)⟩
      | (.response status body result, attempts) =>
        if status ≠ 200 then ⟨c, attempts, some (.upstream status body)⟩
        else
          ⟨{ c with
              OAuthResponse := some result
              TokenExpires := issued + wrapInt64 (result.ExpiresIn * 1000000000)
              Token := result.AccessToken },
            attempts, none⟩ := by
  have h2 : c.TokenExpires = 0 ∨ c.TokenExpires < now := by
    by_cases h3 : c.TokenExpires = 0
    · exact Or.inl h3
    · right
      by_contra h4
      exact h ⟨h3, by omega⟩
  simp only [GetToken, h2, if_true]

theorem getToken_requests (c : HSClient) (now issued : Int)
    (tokenEndpoint : Nat → Reply OAuthResponse)
    (h : ¬ (c.TokenExpires ≠ 0 ∧ now ≤ c.TokenExpires)) :
    (GetToken c now issued tokenEndpoint).requests = (execute c.RetryCount tokenEndpoint).2 := by
  rw [getToken_refresh c now issued tokenEndpoint h]
  rcases hex : execute c.RetryCount tokenEndpoint with ⟨reply, attempts⟩
  cases reply with
  | failure err => rfl
  | response status body result =>
    by_cases hs : status = 200 <;> simp [hs]

theorem wrapInt64_of_range (x : Int) (h1 : -(2 ^ 63) ≤ x) (h2 : x < 2 ^ 63) :
    wrapInt64 x = x := by
  unfold wrapInt64
  rw [Int.emod_eq_of_lt (by omega) (by omega)]
  omega

/-- C7 as stated fails in three places.  (1) At the expiry instant itself (`now = expiry`,
"reached") the token is still reused: zero requests, client unchanged.  (2) A token endpoint
that answers 429 once and then 200 receives two POSTs, not one.  (3) With
`expires_in = 9223372037` the stored expiry is not `issued + expires_in` seconds, because the
`int64` duration wraps. -/
theorem C7_getToken_counterexample :
    (¬ ((100 : Int) < (clientWithToken "t" 100).TokenExpires)
      ∧ GetToken (clientWithToken "t" 100) 100 100 (fun _ => .response 200 "" (mkOAuth "n" 60))
          = ⟨clientWithToken "t" 100, 0, none⟩)
    ∧ (GetToken (NewHSClient "id" "secret" false) 1000 1001
          (repliesAfter 1 (.response 429 "" (mkOAuth "" 0))
            (.response 200 "" (mkOAuth "n" 60)))).requests = 2
    ∧ (GetToken (NewHSClient "id" "secret" false) 1000 1001
          (fun _ => .response 200 "" (mkOAuth "n" 9223372037))).client.TokenExpires
        ≠ 1001 + 9223372037 * 1000000000 := by
  refine ⟨⟨by decide, by decide⟩, by decide, by decide⟩

/-- C7, amended: `GetToken` is a no-op (zero requests to the token endpoint, client unchanged)
if and only if a token exists (the stored expiry is not the zero time) and the current time
is not after its expiry.  In every other case it issues one exchange: a POST that is re-sent
only while the endpoint answers 429 (every answer but the last is a 429, and the last is not
a 429 unless the retries are used up), so between 1 and `RetryCount + 1` (= 4) requests, and
exactly 1 when the first answer is not 429; on a final answer of status 200 it returns no
error and stores the new token with expiry = `issued` + the `int64` duration of `expires_in`
seconds, which is `issued + expires_in` seconds when `expires_in` is at most 9223372036 in
absolute value. -/
theorem C7_getToken_refresh_rule (c : HSClient) (now issued : Int)
    (tokenEndpoint : Nat → Reply OAuthResponse) :
    (((GetToken c now issued tokenEndpoint).requests = 0
        ∧ (GetToken c now issued tokenEndpoint).client = c)
      ↔ (c.TokenExpires ≠ 0 ∧ now ≤ c.TokenExpires))
    ∧ ((c.TokenExpires ≠ 0 ∧ now ≤ c.TokenExpires) →
        GetToken c now issued tokenEndpoint = ⟨c, 0, none⟩)
    ∧ (¬ (c.TokenExpires ≠ 0 ∧ now ≤ c.TokenExpires) →
        1 ≤ (GetToken c now issued tokenEndpoint).requests
        ∧ (GetToken c now issued tokenEndpoint).requests ≤ c.RetryCount + 1
        ∧ (c.RetryCount = 3 → (GetToken c now issued tokenEndpoint).requests ≤ 4)
        ∧ ((tokenEndpoint 0).StatusCode ≠ 429 →
            (GetToken c now issued tokenEndpoint).requests = 1)
        ∧ (1 < (GetToken c now issued tokenEndpoint).requests →
            (tokenEndpoint 0).StatusCode = 429)
        ∧ (∀ j, j + 1 < (GetToken c now issued tokenEndpoint).requests →
            (tokenEndpoint j).StatusCode = 429)
        ∧ ((GetToken c now issued tokenEndpoint).requests < c.RetryCount + 1 →
            (tokenEndpoint ((GetToken c now issued tokenEndpoint).requests - 1)).StatusCode
              ≠ 429)
        ∧ (execute c.RetryCount tokenEndpoint).1
            = tokenEndpoint ((GetToken c now issued tokenEndpoint).requests - 1)
        ∧ (∀ body result,
            (execute c.RetryCount tokenEndpoint).1 = .response 200 body result →
            (GetToken c now issued tokenEndpoint).err = none
            ∧ (GetToken c now issued tokenEndpoint).client.OAuthResponse = some result
            ∧ (GetToken c now issued tokenEndpoint).client.Token = result.AccessToken
            ∧ (GetToken c now issued tokenEndpoint).client.TokenExpires
                = issued + wrapInt64 (result.ExpiresIn * 1000000000)
            ∧ (-9223372036 ≤ result.ExpiresIn ∧ result.ExpiresIn ≤ 9223372036 →
                (GetToken c now issued tokenEndpoint).client.TokenExpires
                  = issued + result.ExpiresIn * 1000000000))) := by
  refine ⟨⟨?_, ?_⟩, getToken_valid c now issued tokenEndpoint, ?_⟩
  · rintro ⟨hreq, _⟩
    by_contra hne
    have h1 := getToken_requests c now issued tokenEndpoint hne
    have h2 := (execute_attempts c.RetryCount tokenEndpoint).1
    omega
  · intro h
    rw [getToken_valid c now issued tokenEndpoint h]
    exact ⟨rfl, rfl⟩
  · intro hne
    have hreq := getToken_requests c now issued tokenEndpoint hne
    have hatt := execute_attempts c.RetryCount tokenEndpoint
    have hone : (tokenEndpoint 0).StatusCode ≠ 429 →
        (GetToken c now issued tokenEndpoint).requests = 1 := by
      intro h0
      rw [hreq, execute_stop c.RetryCount tokenEndpoint h0]
    obtain ⟨hex1, hex2, hex3⟩ := execute_exact c.RetryCount tokenEndpoint
    refine ⟨by omega, by omega, fun h3 => by omega, hone, ?_, ?_, ?_, ?_, ?_⟩
    · intro hgt
      by_contra h0
      have := hone h0
      omega
    · intro j hj
      rw [hreq] at hj
      exact hex2 j hj
    · intro hlt
      rw [hreq] at hlt ⊢
      exact hex3 hlt
    · rw [hreq]
      exact hex1
    · intro body result hfin
      rw [getToken_refresh c now issued tokenEndpoint hne]
      rcases hex : execute c.RetryCount tokenEndpoint with ⟨reply, attempts⟩
      rw [hex] at hfin
      simp only at hfin
      subst hfin
      refine ⟨rfl, rfl, rfl, rfl, ?_⟩
      rintro ⟨hlo, hhi⟩
      show issued + wrapInt64 (result.ExpiresIn * 1000000000) = _
      rw [wrapInt64_of_range _ (by omega) (by omega)]

/-- C7 (amended) at concrete inputs: a client whose token is still valid at time 1000, and
a fresh client whose token endpoint answers 200 with a 60-second lifetime. -/
theorem C7_getToken_refresh_rule_witness :
    GetToken (clientWithToken "t" 2000) 1000 1001 (fun _ => .failure "down")
        = ⟨clientWithToken "t" 2000, 0, none⟩
    ∧ (GetToken (NewHSClient "id" "secret" false) 1000 1001
          (fun _ => .response 200 "" (mkOAuth "n" 60))).requests = 1
    ∧ (GetToken (NewHSClient "id" "secret" false) 1000 1001
          (fun _ => .response 200 "" (mkOAuth "n" 60))).client.TokenExpires
        = 1001 + 60 * 1000000000 :=
  ⟨(C7_getToken_refresh_rule (clientWithToken "t" 2000) 1000 1001
      (fun _ => .failure "down")).2.1 (by decide),
    ((C7_getToken_refresh_rule (NewHSClient "id" "secret" false) 1000 1001
      (fun _ => .response 200 "" (mkOAuth "n" 60))).2.2 (by decide)).2.2.2.1 (by decide),
    (((C7_getToken_refresh_rule (NewHSClient "id" "secret" false) 1000 1001
      (fun _ => .response 200 "" (mkOAuth "n" 60))).2.2 (by decide)).2.2.2.2.2.2.2.2
        "" (mkOAuth "n" 60) (by rfl)).2.2.2.2 (by decide)⟩

theorem getToken_retryCount (c : HSClient) (now issued : Int)
    (tokenEndpoint : Nat → Reply OAuthResponse) :
    (GetToken c now issued tokenEndpoint).client.RetryCount = c.RetryCount := by
  unfold GetToken
  split
  · rcases execute c.RetryCount tokenEndpoint with ⟨reply, attempts⟩
    cases reply with
    | failure err => rfl
    | response status body result =>
      by_cases hs : status = 200 <;> simp [hs]
  · rfl

theorem searchCards_of_token_ok (c : HSClient) (opts : List (String × String))
    (now issued : Int) (tokenEndpoint : Nat → Reply OAuthResponse)
    (cardsEndpoint : List (String × String) → Nat → Reply CardSearchResult)
    (h : (GetToken c now issued tokenEndpoint).err = none) :
    SearchCards c opts now issued tokenEndpoint cardsEndpoint =
      match execute c.RetryCount (cardsEndpoint opts) with
      | (.failure err, attempts) =>
        ⟨(GetToken c now issued tokenEndpoint).client,
          (GetToken c now issued tokenEndpoint).requests, attempts, .error (.transport err)⟩
      | (.response status body result, attempts) =>
        if status ≠ 200 then
          ⟨(GetToken c now issued tokenEndpoint).client,
            (GetToken c now issued tokenEndpoint).requests, attempts,
            .error (.upstream status body)⟩
        else
          ⟨(GetToken c now issued tokenEndpoint).client,
            (GetToken c now issued tokenEndpoint).requests, attempts, .ok result⟩ := by
  have hr := getToken_retryCount c now issued tokenEndpoint
  unfold SearchCards
  rcases hg : GetToken c now issued tokenEndpoint with ⟨c1, posts, err⟩
  rw [hg] at h hr
  simp only at h hr
  subst h
  simp only [hr]

theorem searchCards_of_token_err (c : HSClient) (opts : List (String × String))
    (now issued : Int) (tokenEndpoint : Nat → Reply OAuthResponse)
    (cardsEndpoint : List (String × String) → Nat → Reply CardSearchResult)
    (c1 : HSClient) (posts : Nat) (e : ApiError)
    (h : GetToken c now issued tokenEndpoint = ⟨c1, posts, some e⟩) :
    SearchCards c opts now issued tokenEndpoint cardsEndpoint = ⟨c1, posts, 0, .error e⟩ := by
  unfold SearchCards
  rw [h]

theorem getMetadata_of_token_err (c : HSClient)
    (now issued : Int) (tokenEndpoint : Nat → Reply OAuthResponse)
    (metadataEndpoint : List (String × String) → Nat → Reply MetadataResult)
    (c1 : HSClient) (posts : Nat) (e : ApiError)
    (h : GetToken c now issued tokenEndpoint = ⟨c1, posts, some e⟩) :
    GetMetadata c now issued tokenEndpoint metadataEndpoint = ⟨c1, posts, 0, .error e⟩ := by
  unfold GetMetadata
  rw [h]

/-- C8: retry bound.  The retry condition holds exactly when the response status is 429 and
`NewHSClient` allows 3 retries (4 attempts).  For a client with that retry count whose
`GetToken` succeeds: a cards endpoint that answers 429 three times and then 200 makes
`SearchCards` return the result with no error, after 4 requests; one that answers 429 on all 4
attempts makes it return the upstream error for status 429, after 4 requests; any other
non-200 status on the first attempt is returned as an upstream error after that single
request; and never more than 4 requests are sent. -/
theorem C8_retry_bound (c : HSClient) (opts : List (String × String)) (now issued : Int)
    (tokenEndpoint : Nat → Reply OAuthResponse)
    (cardsEndpoint : List (String × String) → Nat → Reply CardSearchResult)
    (hretry : c.RetryCount = 3)
    (htoken : (GetToken c now issued tokenEndpoint).err = none) :
    (∀ r : Reply CardSearchResult, retryCondition r = true ↔ r.StatusCode = 429)
    ∧ (∀ id secret debug, (NewHSClient id secret debug).RetryCount = 3)
    ∧ (∀ body result,
        (∀ k, k < 3 → (cardsEndpoint opts k).StatusCode = 429) →
        cardsEndpoint opts 3 = .response 200 body result →
        (SearchCards c opts now issued tokenEndpoint cardsEndpoint).result = .ok result
        ∧ (SearchCards c opts now issued tokenEndpoint cardsEndpoint).resourceRequests = 4)
    ∧ (∀ body result,
        (∀ k, k < 3 → (cardsEndpoint opts k).StatusCode = 429) →
        cardsEndpoint opts 3 = .response 429 body result →
        (SearchCards c opts now issued tokenEndpoint cardsEndpoint).result
          = .error (.upstream 429 body)
        ∧ (SearchCards c opts now issued tokenEndpoint cardsEndpoint).resourceRequests = 4)
    ∧ (∀ status body result,
        cardsEndpoint opts 0 = .response status body result → status ≠ 200 → status ≠ 429 →
        (SearchCards c opts now issued tokenEndpoint cardsEndpoint).result
          = .error (.upstream status body)
        ∧ (SearchCards c opts now issued tokenEndpoint cardsEndpoint).resourceRequests = 1)
    ∧ (SearchCards c opts now issued tokenEndpoint cardsEndpoint).resourceRequests ≤ 4 := by
  have hs := searchCards_of_token_ok c opts now issued tokenEndpoint cardsEndpoint htoken
  rw [hretry] at hs
  refine ⟨retryCondition_iff, fun _ _ _ => rfl, ?_, ?_, ?_, ?_⟩
  · intro body result hbusy hlast
    have hex := execute_after 3 (cardsEndpoint opts) 3 (le_refl 3) hbusy (Or.inl rfl)
    rw [hs, hex, hlast]
    exact ⟨rfl, rfl⟩
  · intro body result hbusy hlast
    have hex := execute_after 3 (cardsEndpoint opts) 3 (le_refl 3) hbusy (Or.inl rfl)
    rw [hs, hex, hlast]
    exact ⟨rfl, rfl⟩
  · intro status body result h0 h200 h429
    have hex := execute_stop 3 (cardsEndpoint opts) (by rw [h0]; exact h429)
    rw [hs, hex, h0]
    simp [h200]
  · have hatt := (execute_attempts 3 (cardsEndpoint opts)).2
    rw [hs]
    rcases hex : execute 3 (cardsEndpoint opts) with ⟨reply, attempts⟩
    rw [hex] at hatt
    cases reply with
    | failure err => exact hatt
    | response status body result =>
      by_cases h200 : status = 200 <;> simp [h200] <;> exact hatt

/-- C8 at a concrete transport: a client with a valid token, a cards endpoint answering 429
three times and then 200 with an empty result. -/
theorem C8_retry_bound_witness :
    (SearchCards (clientWithToken "t" 2000) [("locale", "en_US")] 1000 1001
        (fun _ => .failure "unused")
        (fun _ => repliesAfter 3 (.response 429 "slow down" (mkSearchResult []))
          (.response 200 "" (mkSearchResult [])))).result = .ok (mkSearchResult [])
    ∧ (SearchCards (clientWithToken "t" 2000) [("locale", "en_US")] 1000 1001
        (fun _ => .failure "unused")
        (fun _ => repliesAfter 3 (.response 429 "slow down" (mkSearchResult []))
          (.response 200 "" (mkSearchResult [])))).resourceRequests = 4 :=
  (C8_retry_bound (clientWithToken "t" 2000) [("locale", "en_US")] 1000 1001
    (fun _ => .failure "unused")
    (fun _ => repliesAfter 3 (.response 429 "slow down" (mkSearchResult []))
      (.response 200 "" (mkSearchResult [])))
    rfl (by decide)).2.2.1 "" (mkSearchResult [])
    (by intro k hk; interval_cases k <;> rfl) rfl

/-- C9 as stated fails: a fresh client whose token endpoint always answers 429 sends four
POSTs (three retries) before `GetToken` returns the error. -/
theorem C9_token_exchange_retried_counterexample :
    GetToken (NewHSClient "id" "secret" false) 1000 1001
        (fun _ => .response 429 "slow down" (mkOAuth "" 0))
      = ⟨NewHSClient "id" "secret" false, 4, some (.upstream 429 "slow down")⟩ := by
  decide

/-- C9, amended: when a token exchange is needed and it fails (its last answer is a transport
error or a status other than 200), `GetToken` returns that error and leaves the client, with
its stored token and expiry, exactly as it was; the POST is re-sent only while the endpoint
answers 429 (every answer but the last is a 429, and the last is not a 429 unless the retries
are used up; at most `RetryCount + 1` requests, exactly one when the first answer is not
429); `SearchCards` and `GetMetadata` return the same error with no result and send no
resource request. -/
theorem C9_token_failure_propagates (c : HSClient) (opts : List (String × String))
    (now issued : Int) (tokenEndpoint : Nat → Reply OAuthResponse)
    (cardsEndpoint : List (String × String) → Nat → Reply CardSearchResult)
    (metadataEndpoint : List (String × String) → Nat → Reply MetadataResult)
    (hneed : c.TokenExpires = 0 ∨ c.TokenExpires < now) :
    (∀ e, ((∃ msg, (execute c.RetryCount tokenEndpoint).1 = .failure msg
              ∧ e = ApiError.transport msg)
            ∨ (∃ status body result,
                (execute c.RetryCount tokenEndpoint).1 = .response status body result
                ∧ status ≠ 200 ∧ e = ApiError.upstream status body)) →
        (GetToken c now issued tokenEndpoint).err = some e
        ∧ (GetToken c now issued tokenEndpoint).client = c
        ∧ SearchCards c opts now issued tokenEndpoint cardsEndpoint
            = ⟨c, (GetToken c now issued tokenEndpoint).requests, 0, .error e⟩
        ∧ GetMetadata c now issued tokenEndpoint metadataEndpoint
            = ⟨c, (GetToken c now issued tokenEndpoint).requests, 0, .error e⟩)
    ∧ 1 ≤ (GetToken c now issued tokenEndpoint).requests
    ∧ (GetToken c now issued tokenEndpoint).requests ≤ c.RetryCount + 1
    ∧ ((tokenEndpoint 0).StatusCode ≠ 429 →
        (GetToken c now issued tokenEndpoint).requests = 1)
    ∧ (1 < (GetToken c now issued tokenEndpoint).requests →
        (tokenEndpoint 0).StatusCode = 429)
    ∧ (∀ j, j + 1 < (GetToken c now issued tokenEndpoint).requests →
        (tokenEndpoint j).StatusCode = 429)
    ∧ ((GetToken c now issued tokenEndpoint).requests < c.RetryCount + 1 →
        (tokenEndpoint ((GetToken c now issued tokenEndpoint).requests - 1)).StatusCode ≠ 429)
    ∧ (execute c.RetryCount tokenEndpoint).1
        = tokenEndpoint ((GetToken c now issued tokenEndpoint).requests - 1)
    ∧ (c.RetryCount = 3 → (GetToken c now issued tokenEndpoint).requests ≤ 4) := by
  have hne : ¬ (c.TokenExpires ≠ 0 ∧ now ≤ c.TokenExpires) := by
    rintro ⟨h1, h2⟩
    rcases hneed with h | h
    · exact h1 h
    · omega
  have hreq := getToken_requests c now issued tokenEndpoint hne
  have hatt := execute_attempts c.RetryCount tokenEndpoint
  have hone : (tokenEndpoint 0).StatusCode ≠ 429 →
      (GetToken c now issued tokenEndpoint).requests = 1 := by
    intro h0
    rw [hreq, execute_stop c.RetryCount tokenEndpoint h0]
  obtain ⟨hex1, hex2, hex3⟩ := execute_exact c.RetryCount tokenEndpoint
  refine ⟨?_, by omega, by omega, hone, ?_, ?_, ?_, ?_, fun h3 => by omega⟩
  · intro e he
    have hg : GetToken c now issued tokenEndpoint
        = ⟨c, (execute c.RetryCount tokenEndpoint).2, some e⟩ := by
      rw [getToken_refresh c now issued tokenEndpoint hne]
      rcases hex : execute c.RetryCount tokenEndpoint with ⟨reply, attempts⟩
      rw [hex] at he
      rcases he with ⟨msg, hf, rfl⟩ | ⟨status, body, result, hf, hs, rfl⟩
      · simp only at hf
        subst hf
        rfl
      · simp only at hf
        subst hf
        simp [hs]
    have hs := searchCards_of_token_err c opts now issued tokenEndpoint cardsEndpoint _ _ _ hg
    have hm := getMetadata_of_token_err c now issued tokenEndpoint metadataEndpoint _ _ _ hg
    rw [hs, hm, hg]
    exact ⟨rfl, rfl, rfl, rfl⟩
  · intro hgt
    by_contra h0
    have := hone h0
    omega
  · intro j hj
    rw [hreq] at hj
    exact hex2 j hj
  · intro hlt
    rw [hreq] at hlt ⊢
    exact hex3 hlt
  · rw [hreq]
    exact hex1

/-- C9 (amended) at a fresh client whose token endpoint is unreachable. -/
theorem C9_token_failure_propagates_witness :
    (GetToken (NewHSClient "id" "secret" false) 1000 1001 (fun _ => .failure "down")).err
        = some (.transport "down")
    ∧ (GetToken (NewHSClient "id" "secret" false) 1000 1001 (fun _ => .failure "down")).client
        = NewHSClient "id" "secret" false
    ∧ SearchCards (NewHSClient "id" "secret" false) [("class", "druid")] 1000 1001
          (fun _ => .failure "down") (fun _ _ => .response 200 "" (mkSearchResult []))
        = ⟨NewHSClient "id" "secret" false,
            (GetToken (NewHSClient "id" "secret" false) 1000 1001
              (fun _ => .failure "down")).requests, 0, .error (.transport "down")⟩
    ∧ GetMetadata (NewHSClient "id" "secret" false) 1000 1001
          (fun _ => .failure "down") (fun _ _ => .response 200 "" ⟨[], [], [], []⟩)
        = ⟨NewHSClient "id" "secret" false,
            (GetToken (NewHSClient "id" "secret" false) 1000 1001
              (fun _ => .failure "down")).requests, 0, .error (.transport "down")⟩ :=
  (C9_token_failure_propagates (NewHSClient "id" "secret" false) [("class", "druid")]
    1000 1001 (fun _ => .failure "down") (fun _ _ => .response 200 "" (mkSearchResult []))
    (fun _ _ => .response 200 "" ⟨[], [], [], []⟩) (Or.inl rfl)).1
    (.transport "down") (Or.inl ⟨"down", rfl, rfl⟩)

end hsapi
